import Mathlib

/-!
Shallow embedding of the perceptron training routine from the notebook
(`stepFunction`, `prediction`, `perceptronStep`, `trainPerceptronAlgorithm`).
Real numbers are modelled by `ℚ`; numpy shape errors (matmul on mismatched
shapes, `min`/`max` of an empty sequence, indexing past the label array)
are modelled by `Option`. The `np.random` draws are modelled by a
seed-determined stream `rand : ℕ → ℚ`: `np.random.rand(2,1)` consumes
`rand 0` and `rand 1`, the following `np.random.rand(1)[0]` consumes
`rand 2`.
-/

namespace Perceptron

/-- `def stepFunction(t)`: `1` if `t >= 0` else `0`. -/
def stepFunction (t : ℚ) : ℚ :=
  if t ≥ 0 then 1 else 0

/-- `np.matmul(X, W)` for a coordinate vector and a weight vector:
defined exactly when the two lengths agree (numpy raises otherwise). -/
def dotProduct : List ℚ → List ℚ → Option ℚ
  | [], [] => some 0
  | x :: xs, w :: ws => (dotProduct xs ws).map (fun s => x * w + s)
  | [], _ :: _ => none
  | _ :: _, [] => none

/-- `def prediction(X, W, b): return stepFunction((np.matmul(X,W)+b)[0])`. -/
def prediction (X W : List ℚ) (b : ℚ) : Option ℚ :=
  (dotProduct X W).map (fun s => stepFunction (s + b))

/-- The body of the `perceptronStep` loop for a single `(point, label)` pair:
compute `y_hat = prediction(X[i], W, b)`; if `y[i] - y_hat == 1` then
`W[0] += X[i][0]*learn_rate; W[1] += X[i][1]*learn_rate; b += learn_rate`;
if `y[i] - y_hat == -1` the same with `-=`; otherwise no change. -/
def perceptronPointUpdate (x : List ℚ) (lab : ℚ) (W : List ℚ) (b r : ℚ) :
    Option (List ℚ × ℚ) :=
  (prediction x W b).map (fun y_hat =>
    if lab - y_hat = 1 then
      let W0 := W.set 0 (W.getD 0 0 + x.getD 0 0 * r)
      let W1 := W0.set 1 (W0.getD 1 0 + x.getD 1 0 * r)
      (W1, b + r)
    else if lab - y_hat = -1 then
      let W0 := W.set 0 (W.getD 0 0 - x.getD 0 0 * r)
      let W1 := W0.set 1 (W0.getD 1 0 - x.getD 1 0 * r)
      (W1, b - r)
    else (W, b))

/-- `def perceptronStep(X, y, W, b, learn_rate)`: `for i in range(len(X))`
apply `perceptronPointUpdate` to `(X[i], y[i])`, threading `W` and `b`;
`return W, b`.  Entries of `y` beyond `len(X)` are never read; if `y` is
shorter than `X` the Python loop raises (modelled by `none`). -/
def perceptronStep : List (List ℚ) → List ℚ → List ℚ → ℚ → ℚ →
    Option (List ℚ × ℚ)
  | [], _, W, b, _ => some (W, b)
  | _ :: _, [], _, _, _ => none
  | x :: xs, lab :: ys, W, b, r =>
    match perceptronPointUpdate x lab W b r with
    | none => none
    | some (W', b') => perceptronStep xs ys W' b' r

/-- The boundary line `(-W[0]/W[1], -b/W[1])` appended each epoch.
In `ℚ`, division by zero yields `0`; the source divides unconditionally
(numpy emits a warning and yields non-finite junk, no exception). -/
def boundaryLine (W : List ℚ) (b : ℚ) : ℚ × ℚ :=
  (-(W.getD 0 0) / W.getD 1 0, -b / W.getD 1 0)

/-- `x_max = max(X.T[0])`: the maximum first coordinate of the dataset;
`none` on an empty dataset (Python `max` raises there). -/
def firstCoordMax : List (List ℚ) → Option ℚ
  | [] => none
  | p :: ps => some ((ps.map (fun q => q.getD 0 0)).foldl max (p.getD 0 0))

/-- `W = np.array(np.random.rand(2,1))`: the two weight draws. -/
def initialWeights (rand : ℕ → ℚ) : List ℚ :=
  [rand 0, rand 1]

/-- `b = np.random.rand(1)[0] + x_max`: a random draw plus the maximum
first coordinate of the dataset. -/
def initialBias (rand : ℕ → ℚ) (X : List (List ℚ)) : Option ℚ :=
  (firstCoordMax X).map (fun m => rand 2 + m)

/-- The epoch loop of `trainPerceptronAlgorithm`: `num_epochs` times,
`W, b = perceptronStep(X, y, W, b, learn_rate)` then append
`(-W[0]/W[1], -b/W[1])` to `boundary_lines`. -/
def trainLoop (X : List (List ℚ)) (y : List ℚ) (r : ℚ) :
    List ℚ → ℚ → ℕ → Option (List (ℚ × ℚ))
  | _, _, 0 => some []
  | W, b, n + 1 =>
    match perceptronStep X y W b r with
    | none => none
    | some (W', b') =>
      (trainLoop X y r W' b' n).map (fun rest => boundaryLine W' b' :: rest)

/-- `def trainPerceptronAlgorithm(X, y, learn_rate, num_epochs)`:
draw initial `W` and `b` (the latter shifted by `x_max`), then run the
epoch loop and return the list of boundary lines. -/
def trainPerceptronAlgorithm (rand : ℕ → ℚ) (X : List (List ℚ))
    (y : List ℚ) (learn_rate : ℚ) (num_epochs : ℕ) :
    Option (List (ℚ × ℚ)) :=
  match initialBias rand X with
  | none => none
  | some b => trainLoop X y learn_rate (initialWeights rand) b num_epochs

/-- The weights/bias state reached after `k` applications of
`perceptronStep` on the same dataset (one application per epoch). -/
def stepIterate (X : List (List ℚ)) (y : List ℚ) (r : ℚ) :
    List ℚ × ℚ → ℕ → Option (List ℚ × ℚ)
  | s, 0 => some s
  | (W, b), k + 1 =>
    match perceptronStep X y W b r with
    | none => none
    | some s' => stepIterate X y r s' k

/-- Error taxonomy of the specification's boundary-line policy. -/
inductive LineError where
  | divisionByZero
deriving DecidableEq

/-- Follows the spec's words, for comparison with `boundaryLine` from the
source: deriving a BoundaryLine from a zero second weight component fails
with a DivisionByZero error. -/
def boundaryLineSpec (W : List ℚ) (b : ℚ) : Except LineError (ℚ × ℚ) :=
  if W.getD 1 0 = 0 then Except.error LineError.divisionByZero
  else Except.ok (-(W.getD 0 0) / W.getD 1 0, -b / W.getD 1 0)

/-- The program state visible to `perceptronStep`, rendered explicitly for
the frame claims: the dataset arrays `X` and `y` and the owned `W`, `b`. -/
structure PState where
  X : List (List ℚ)
  y : List ℚ
  W : List ℚ
  b : ℚ
deriving DecidableEq

/-- Stateful rendering of the `perceptronStep` loop body at index
`i = s.X.length - k` (`k` is the number of remaining iterations): read
`X[i]` and `y[i]` from the state, write only the `W` and `b` fields. -/
def perceptronIterS (r : ℚ) : ℕ → PState → Option PState
  | 0, s => some s
  | k + 1, s =>
    match s.y.get? (s.X.length - (k + 1)) with
    | none => none
    | some lab =>
      match perceptronPointUpdate (s.X.getD (s.X.length - (k + 1)) []) lab
          s.W s.b r with
      | none => none
      | some (W', b') => perceptronIterS r k { s with W := W', b := b' }

/-- Stateful rendering of `perceptronStep`: run the loop body for
`i in range(len(X))` over the program state. -/
def perceptronStepS (r : ℚ) (s : PState) : Option PState :=
  perceptronIterS r s.X.length s

end Perceptron

namespace Perceptron

/-! Supporting lemmas. -/

theorem stepFunction_mem (t : ℚ) : stepFunction t = 0 ∨ stepFunction t = 1 := by
  unfold stepFunction
  by_cases h : t ≥ 0 <;> simp [h]

theorem dotProduct_some_of_length :
    ∀ (x w : List ℚ), x.length = w.length → ∃ s, dotProduct x w = some s
  | [], [], _ => ⟨0, rfl⟩
  | x :: xs, w :: ws, h => by
    obtain ⟨s, hs⟩ := dotProduct_some_of_length xs ws (by simpa using h)
    exact ⟨x * w + s, by simp [dotProduct, hs]⟩

theorem length_of_dotProduct_some :
    ∀ (x w : List ℚ) (s : ℚ), dotProduct x w = some s → x.length = w.length
  | [], [], _, _ => rfl
  | [], _ :: _, s, h => by simp [dotProduct] at h
  | _ :: _, [], s, h => by simp [dotProduct] at h
  | x :: xs, w :: ws, s, h => by
    simp only [dotProduct, Option.map_eq_some'] at h
    obtain ⟨s', hs', _⟩ := h
    simpa using length_of_dotProduct_some xs ws s' hs'

theorem dotProduct_none_of_length (x w : List ℚ)
    (h : x.length ≠ w.length) : dotProduct x w = none := by
  cases hd : dotProduct x w with
  | none => rfl
  | some s => exact absurd (length_of_dotProduct_some x w s hd) h

theorem dotProduct_eq_sum :
    ∀ (x w : List ℚ) (s : ℚ), dotProduct x w = some s →
      s = (List.zipWith (fun a c => a * c) x w).sum
  | [], [], s, h => by
    simp [dotProduct] at h
    simp [← h]
  | [], _ :: _, s, h => by simp [dotProduct] at h
  | _ :: _, [], s, h => by simp [dotProduct] at h
  | x :: xs, w :: ws, s, h => by
    simp only [dotProduct, Option.map_eq_some'] at h
    obtain ⟨s', hs', rfl⟩ := h
    simp [dotProduct_eq_sum xs ws s' hs']

theorem prediction_some_of_length (x W : List ℚ) (b : ℚ)
    (h : x.length = W.length) : ∃ v, prediction x W b = some v := by
  obtain ⟨s, hs⟩ := dotProduct_some_of_length x W h
  exact ⟨stepFunction (s + b), by simp [prediction, hs]⟩

theorem prediction_none_of_length (x W : List ℚ) (b : ℚ)
    (h : x.length ≠ W.length) : prediction x W b = none := by
  simp [prediction, dotProduct_none_of_length x W h]

theorem length_of_prediction_some (x W : List ℚ) (b v : ℚ)
    (h : prediction x W b = some v) : x.length = W.length := by
  simp only [prediction, Option.map_eq_some'] at h
  obtain ⟨s, hs, _⟩ := h
  exact length_of_dotProduct_some x W s hs

theorem prediction_mem (x W : List ℚ) (b v : ℚ)
    (h : prediction x W b = some v) : v = 0 ∨ v = 1 := by
  simp only [prediction, Option.map_eq_some'] at h
  obtain ⟨s, _, rfl⟩ := h
  exact stepFunction_mem (s + b)

theorem pointUpdate_some_of_length (x : List ℚ) (lab : ℚ) (W : List ℚ)
    (b r : ℚ) (h : x.length = W.length) :
    ∃ s, perceptronPointUpdate x lab W b r = some s := by
  obtain ⟨v, hv⟩ := prediction_some_of_length x W b h
  rw [perceptronPointUpdate, hv]
  exact ⟨_, rfl⟩

theorem pointUpdate_length (x : List ℚ) (lab : ℚ) (W : List ℚ) (b r : ℚ)
    (W' : List ℚ) (b' : ℚ)
    (h : perceptronPointUpdate x lab W b r = some (W', b')) :
    W'.length = W.length := by
  simp only [perceptronPointUpdate, Option.map_eq_some'] at h
  obtain ⟨v, _, hv⟩ := h
  split at hv
  · injection hv with hW hb
    rw [← hW]; simp
  · split at hv
    · injection hv with hW hb
      rw [← hW]; simp
    · injection hv with hW hb
      rw [← hW]

theorem length_of_pointUpdate_some (x : List ℚ) (lab : ℚ) (W : List ℚ)
    (b r : ℚ) (W' : List ℚ) (b' : ℚ)
    (h : perceptronPointUpdate x lab W b r = some (W', b')) :
    x.length = W.length := by
  simp only [perceptronPointUpdate, Option.map_eq_some'] at h
  obtain ⟨v, hv, _⟩ := h
  exact length_of_prediction_some x W b v hv

theorem pointUpdate_frame_high (x : List ℚ) (lab : ℚ) (W : List ℚ)
    (b r : ℚ) (W' : List ℚ) (b' : ℚ)
    (h : perceptronPointUpdate x lab W b r = some (W', b')) :
    ∀ i, 2 ≤ i → W'.getD i 0 = W.getD i 0 := by
  intro i hi
  have h0 : i ≠ 0 := by omega
  have h1 : i ≠ 1 := by omega
  simp only [perceptronPointUpdate, Option.map_eq_some'] at h
  obtain ⟨v, _, hv⟩ := h
  split at hv
  · injection hv with hW hb
    rw [← hW]
    simp [List.getD_eq_getElem?_getD,
      List.getElem?_set_ne (show (1 : ℕ) ≠ i by omega),
      List.getElem?_set_ne (show (0 : ℕ) ≠ i by omega)]
  · split at hv
    · injection hv with hW hb
      rw [← hW]
      simp [List.getD_eq_getElem?_getD,
        List.getElem?_set_ne (show (1 : ℕ) ≠ i by omega),
        List.getElem?_set_ne (show (0 : ℕ) ≠ i by omega)]
    · injection hv with hW hb
      rw [← hW]

theorem perceptronStep_length :
    ∀ (X : List (List ℚ)) (y W : List ℚ) (b r : ℚ) (W' : List ℚ) (b' : ℚ),
      perceptronStep X y W b r = some (W', b') → W'.length = W.length
  | [], _, W, b, r, W', b', h => by
    simp [perceptronStep] at h
    simp [← h.1]
  | _ :: _, [], _, _, _, _, _, h => by simp [perceptronStep] at h
  | x :: xs, lab :: ys, W, b, r, W', b', h => by
    simp only [perceptronStep] at h
    cases hu : perceptronPointUpdate x lab W b r with
    | none => simp [hu] at h
    | some s =>
      rw [hu] at h
      have := perceptronStep_length xs ys s.1 s.2 r W' b' h
      rw [this]
      exact pointUpdate_length x lab W b r s.1 s.2 (by simpa using hu)

theorem perceptronStep_points_length :
    ∀ (X : List (List ℚ)) (y W : List ℚ) (b r : ℚ) (W' : List ℚ) (b' : ℚ),
      perceptronStep X y W b r = some (W', b') →
      ∀ p ∈ X, p.length = W.length
  | [], _, _, _, _, _, _, _ => by simp
  | _ :: _, [], _, _, _, _, _, h => by simp [perceptronStep] at h
  | x :: xs, lab :: ys, W, b, r, W', b', h => by
    simp only [perceptronStep] at h
    cases hu : perceptronPointUpdate x lab W b r with
    | none => simp [hu] at h
    | some s =>
      rw [hu] at h
      intro p hp
      rcases List.mem_cons.mp hp with rfl | hp
      · exact length_of_pointUpdate_some p lab W b r s.1 s.2
          (by simpa using hu)
      · have hlen := pointUpdate_length x lab W b r s.1 s.2
          (by simpa using hu)
        have := perceptronStep_points_length xs ys s.1 s.2 r W' b' h p hp
        rw [this, hlen]

theorem perceptronStep_total :
    ∀ (X : List (List ℚ)) (y W : List ℚ) (b r : ℚ),
      (∀ p ∈ X, p.length = W.length) → X.length ≤ y.length →
      ∃ W' b', perceptronStep X y W b r = some (W', b') ∧
        W'.length = W.length
  | [], _, W, b, r, _, _ => ⟨W, b, rfl, rfl⟩
  | x :: xs, [], W, b, r, _, hy => by simp at hy
  | x :: xs, lab :: ys, W, b, r, hp, hy => by
    obtain ⟨⟨W1, b1⟩, hu⟩ := pointUpdate_some_of_length x lab W b r
      (hp x (by simp))
    have hW1 : W1.length = W.length := pointUpdate_length x lab W b r W1 b1 hu
    obtain ⟨W', b', hs, hl⟩ := perceptronStep_total xs ys W1 b1 r
      (fun p hp' => (hp p (by simp [hp'])).trans hW1.symm)
      (by simpa using hy)
    exact ⟨W', b', by simp [perceptronStep, hu, hs], hl.trans hW1⟩

theorem perceptronStep_frame_high :
    ∀ (X : List (List ℚ)) (y W : List ℚ) (b r : ℚ) (W' : List ℚ) (b' : ℚ),
      perceptronStep X y W b r = some (W', b') →
      ∀ i, 2 ≤ i → W'.getD i 0 = W.getD i 0
  | [], _, W, b, r, W', b', h => by
    simp [perceptronStep] at h
    simp [← h.1]
  | _ :: _, [], _, _, _, _, _, h => by simp [perceptronStep] at h
  | x :: xs, lab :: ys, W, b, r, W', b', h => by
    simp only [perceptronStep] at h
    cases hu : perceptronPointUpdate x lab W b r with
    | none => simp [hu] at h
    | some s =>
      rw [hu] at h
      intro i hi
      have h1 := perceptronStep_frame_high xs ys s.1 s.2 r W' b' h i hi
      have h2 := pointUpdate_frame_high x lab W b r s.1 s.2
        (by simpa using hu) i hi
      rw [h1, h2]

theorem perceptronStep_none_of_bad_point (X : List (List ℚ)) (y W : List ℚ)
    (b r : ℚ) (p : List ℚ) (hp : p ∈ X) (hlen : p.length ≠ W.length) :
    perceptronStep X y W b r = none := by
  cases h : perceptronStep X y W b r with
  | none => rfl
  | some s =>
    obtain ⟨W', b'⟩ := s
    exact absurd (perceptronStep_points_length X y W b r W' b' h p hp) hlen

theorem trainLoop_spec (X : List (List ℚ)) (y : List ℚ) (r : ℚ) :
    ∀ (n : ℕ) (W : List ℚ) (b : ℚ),
      (∀ p ∈ X, p.length = W.length) → X.length ≤ y.length →
      ∃ lines, trainLoop X y r W b n = some lines ∧
        lines.length = n ∧
        ∀ k, k < n → lines.get? k =
          (stepIterate X y r (W, b) (k + 1)).map
            (fun s => boundaryLine s.1 s.2)
  | 0, W, b, _, _ => ⟨[], rfl, rfl, fun k hk => absurd hk (Nat.not_lt_zero k)⟩
  | n + 1, W, b, hp, hy => by
    obtain ⟨W', b', hs, hl⟩ := perceptronStep_total X y W b r hp hy
    obtain ⟨rest, hrest, hlen, hget⟩ := trainLoop_spec X y r n W' b'
      (fun p hp' => (hp p hp').trans hl.symm) hy
    refine ⟨boundaryLine W' b' :: rest, ?_, by simp [hlen], ?_⟩
    · simp [trainLoop, hs, hrest]
    · intro k hk
      cases k with
      | zero => simp [stepIterate, hs]
      | succ k =>
        have hit : stepIterate X y r (W, b) (k + 1 + 1) =
            stepIterate X y r (W', b') (k + 1) := by
          simp [stepIterate, hs]
        simp only [List.get?_cons_succ]
        rw [hget k (by omega), hit]

theorem perceptronIterS_frame :
    ∀ (r : ℚ) (k : ℕ) (s s' : PState), perceptronIterS r k s = some s' →
      s'.X = s.X ∧ s'.y = s.y
  | r, 0, s, s', h => by
    simp only [perceptronIterS, Option.some.injEq] at h
    rw [← h]
    exact ⟨rfl, rfl⟩
  | r, k + 1, s, s', h => by
    simp only [perceptronIterS] at h
    cases hy : s.y.get? (s.X.length - (k + 1)) with
    | none => rw [hy] at h; exact absurd h (by simp)
    | some lab =>
      rw [hy] at h
      dsimp only at h
      cases hu : perceptronPointUpdate (s.X.getD (s.X.length - (k + 1)) [])
          lab s.W s.b r with
      | none =>
        rw [hu] at h
        exact absurd h (by simp)
      | some u =>
        obtain ⟨W', b'⟩ := u
        rw [hu] at h
        dsimp only at h
        have := perceptronIterS_frame r k _ s' h
        simpa using this

/-- Claim C1 as written is false on the code: on the spec's concrete
scenario the second point is a false positive, so the bias is decreased
by the learning rate, ending at `-0.1`, not `0.1`. -/
theorem C1_counterexample :
    ¬ (perceptronStep [[1, 1], [-1, -1]] [1, 0] [0, 0] 0 (1 / 10) =
      some ([1 / 10, 1 / 10], 1 / 10)) := by
  norm_num [perceptronStep, perceptronPointUpdate, prediction, dotProduct,
    stepFunction]

/-- Claim C1 (amended): on `dataset = [([1,1],1), ([-1,-1],0)]`,
`weights=[0,0]`, `bias=0`, `learning_rate=0.1`, a single `perceptronStep`
returns `weights=[0.1, 0.1]` and `bias = -0.1`. -/
theorem C1_amended :
    perceptronStep [[1, 1], [-1, -1]] [1, 0] [0, 0] 0 (1 / 10) =
      some ([1 / 10, 1 / 10], -(1 / 10)) := by
  norm_num [perceptronStep, perceptronPointUpdate, prediction, dotProduct,
    stepFunction]

end Perceptron

namespace Perceptron

/-- Claim C2: `perceptronStep` processes the (point, label) pairs in dataset
order; for each pair with prediction `y_hat`, every weight dimension `i`
changes by `(label - y_hat) * point[i] * learn_rate` and the bias by
`(label - y_hat) * learn_rate` (which is `+`, `-` or no change as
`label - y_hat` is `1`, `-1` or `0`); and when every point is already
predicted correctly the weights and bias are returned unchanged. -/
theorem C2_step_order_and_fixed_point :
    (∀ (x : List ℚ) (lab : ℚ) (xs : List (List ℚ)) (ys W : List ℚ)
      (b r : ℚ), W.length = 2 → x.length = 2 → (lab = 0 ∨ lab = 1) →
      ∃ y_hat W' b', prediction x W b = some y_hat ∧
        W'.length = W.length ∧
        (∀ i, i < W.length →
          W'.getD i 0 = W.getD i 0 + (lab - y_hat) * (x.getD i 0 * r)) ∧
        b' = b + (lab - y_hat) * r ∧
        perceptronStep (x :: xs) (lab :: ys) W b r =
          perceptronStep xs ys W' b' r) ∧
    (∀ (X : List (List ℚ)) (y W : List ℚ) (b r : ℚ),
      X.length ≤ y.length →
      (∀ pr ∈ X.zip y, prediction pr.1 W b = some pr.2) →
      perceptronStep X y W b r = some (W, b)) := by
  constructor
  · intro x lab xs ys W b r hW hx hlab
    obtain ⟨w0, w1, rfl⟩ := List.length_eq_two.mp hW
    obtain ⟨x0, x1, rfl⟩ := List.length_eq_two.mp hx
    have hpred : prediction [x0, x1] [w0, w1] b =
        some (stepFunction (x0 * w0 + (x1 * w1 + 0) + b)) := rfl
    rcases stepFunction_mem (x0 * w0 + (x1 * w1 + 0) + b) with hv | hv <;>
      rcases hlab with rfl | rfl
    · have hu : perceptronPointUpdate [x0, x1] 0 [w0, w1] b r =
          some ([w0, w1], b) := by
        rw [perceptronPointUpdate, hpred, hv]
        norm_num
      refine ⟨0, [w0, w1], b, by rw [hpred, hv], rfl, ?_, by ring,
        by simp only [perceptronStep, hu]⟩
      intro i hi
      simp only [List.length_cons, List.length_nil] at hi
      interval_cases i <;> simp <;> ring
    · have hu : perceptronPointUpdate [x0, x1] 1 [w0, w1] b r =
          some ([w0 + x0 * r, w1 + x1 * r], b + r) := by
        rw [perceptronPointUpdate, hpred, hv]
        norm_num
      refine ⟨0, [w0 + x0 * r, w1 + x1 * r], b + r, by rw [hpred, hv],
        rfl, ?_, by ring, by simp only [perceptronStep, hu]⟩
      intro i hi
      simp only [List.length_cons, List.length_nil] at hi
      interval_cases i <;> simp <;> ring
    · have hu : perceptronPointUpdate [x0, x1] 0 [w0, w1] b r =
          some ([w0 - x0 * r, w1 - x1 * r], b - r) := by
        rw [perceptronPointUpdate, hpred, hv]
        norm_num
      refine ⟨1, [w0 - x0 * r, w1 - x1 * r], b - r, by rw [hpred, hv],
        rfl, ?_, by ring, by simp only [perceptronStep, hu]⟩
      intro i hi
      simp only [List.length_cons, List.length_nil] at hi
      interval_cases i <;> simp <;> ring
    · have hu : perceptronPointUpdate [x0, x1] 1 [w0, w1] b r =
          some ([w0, w1], b) := by
        rw [perceptronPointUpdate, hpred, hv]
        norm_num
      refine ⟨1, [w0, w1], b, by rw [hpred, hv], rfl, ?_, by ring,
        by simp only [perceptronStep, hu]⟩
      intro i hi
      simp only [List.length_cons, List.length_nil] at hi
      interval_cases i <;> simp <;> ring
  · intro X
    induction X with
    | nil => intro y W b r _ _; rfl
    | cons x xs ih =>
      intro y W b r hy hpred
      cases y with
      | nil => simp at hy
      | cons lab ys =>
        have hx : prediction x W b = some lab := hpred (x, lab) (by simp)
        have hu : perceptronPointUpdate x lab W b r = some (W, b) := by
          rw [perceptronPointUpdate, hx]
          norm_num
        simp only [perceptronStep, hu]
        exact ih ys W b r (by simpa using hy)
          (fun pr hpr => hpred pr (by simp [hpr]))

/-- Witness for C2 at concrete inputs: a misclassified false-positive point
`([-1,-1], 0)` from weights `[0,0]`, bias `0`, rate `1/10`, and a
fixed-point dataset `[([1,1], 1)]` with weights `[1,1]`, bias `0`. -/
theorem C2_witness :
    (∃ y_hat W' b',
      prediction [-1, -1] [0, 0] 0 = some y_hat ∧
      W'.length = ([0, 0] : List ℚ).length ∧
      (∀ i, i < ([0, 0] : List ℚ).length →
        W'.getD i 0 = ([0, 0] : List ℚ).getD i 0 +
          ((0 : ℚ) - y_hat) * (([-1, -1] : List ℚ).getD i 0 * (1 / 10))) ∧
      b' = 0 + ((0 : ℚ) - y_hat) * (1 / 10) ∧
      perceptronStep [[-1, -1]] [0] [0, 0] 0 (1 / 10) =
        perceptronStep [] [] W' b' (1 / 10)) ∧
    perceptronStep [[1, 1]] [1] [1, 1] 0 (1 / 10) = some ([1, 1], 0) :=
  ⟨C2_step_order_and_fixed_point.1 [-1, -1] 0 [] [] [0, 0] 0 (1 / 10)
      rfl rfl (Or.inl rfl),
    C2_step_order_and_fixed_point.2 [[1, 1]] [1] [1, 1] 0 (1 / 10)
      (by norm_num)
      (by
        intro pr hpr
        simp only [List.zip_cons_cons, List.zip_nil_right,
          List.mem_singleton] at hpr
        rw [hpr]
        norm_num [prediction, dotProduct, stepFunction])⟩

end Perceptron

namespace Perceptron

/-- Claim C3 as written is false on the code: on a run whose single epoch
ends with `weights = [1, 0]` (second component exactly 0), the spec's
DivisionByZero policy would reject that epoch's line, but the code derives
and appends a line for that epoch anyway (dividing by zero; in `ℚ` the
junk value is `(0, 0)`), so no epoch's line is missing. -/
theorem C3_counterexample :
    stepIterate [[1, 1]] [1] (1 / 10)
        (initialWeights (fun n => if n = 1 then 0 else 1), 2) 1 =
      some ([1, 0], 2) ∧
    ([1, 0] : List ℚ).getD 1 0 = 0 ∧
    boundaryLineSpec [1, 0] 2 = Except.error LineError.divisionByZero ∧
    trainPerceptronAlgorithm (fun n => if n = 1 then 0 else 1) [[1, 1]] [1]
        (1 / 10) 1 = some [(0, 0)] := by
  refine ⟨?_, by norm_num, by norm_num [boundaryLineSpec], ?_⟩
  · norm_num [stepIterate, initialWeights, perceptronStep,
      perceptronPointUpdate, prediction, dotProduct, stepFunction]
  · norm_num [trainPerceptronAlgorithm, initialBias, firstCoordMax,
      initialWeights, trainLoop, perceptronStep, perceptronPointUpdate,
      prediction, dotProduct, stepFunction, boundaryLine]

/-- Claim C3 (amended): if the weights' second component is exactly 0 at
the end of some epoch, the code raises no error: that epoch's line is
still derived (by an ill-defined division) and appended, training
continues, the weights/bias updates of subsequent epochs are unaffected,
and every epoch's line is produced. -/
theorem C3_amended (rand : ℕ → ℚ) (X : List (List ℚ)) (y : List ℚ)
    (r : ℚ) (n k : ℕ) (b0 : ℚ) (W' : List ℚ) (b' : ℚ)
    (hp : ∀ p ∈ X, p.length = 2) (hy : X.length ≤ y.length)
    (hb0 : initialBias rand X = some b0) (hk : k < n)
    (hstate : stepIterate X y r (initialWeights rand, b0) (k + 1) =
      some (W', b'))
    (hzero : W'.getD 1 0 = 0) :
    boundaryLineSpec W' b' = Except.error LineError.divisionByZero ∧
    ∃ lines, trainPerceptronAlgorithm rand X y r n = some lines ∧
      lines.length = n ∧
      lines.get? k = some (boundaryLine W' b') ∧
      ∀ j, j < n → lines.get? j =
        (stepIterate X y r (initialWeights rand, b0) (j + 1)).map
          (fun s => boundaryLine s.1 s.2) := by
  refine ⟨by rw [boundaryLineSpec, if_pos hzero], ?_⟩
  obtain ⟨lines, hloop, hlen, hget⟩ :=
    trainLoop_spec X y r n (initialWeights rand) b0
      (fun p hp' => by simpa [initialWeights] using hp p hp') hy
  refine ⟨lines, ?_, hlen, ?_, hget⟩
  · simp only [trainPerceptronAlgorithm, hb0]
    exact hloop
  · rw [hget k hk, hstate]
    rfl

/-- Claim C4: `prediction` is defined (never raises) whenever the point and
weight dimensionalities agree; on a mismatch it is undefined (ShapeMismatch),
and that failure propagates: `perceptronStep` over a dataset containing a
mismatched point aborts, as does `trainPerceptronAlgorithm` whenever it runs
at least one epoch. -/
theorem C4_shape_errors :
    (∀ (x W : List ℚ) (b : ℚ), x.length = W.length →
      ∃ v, prediction x W b = some v) ∧
    (∀ (x W : List ℚ) (b : ℚ), x.length ≠ W.length →
      prediction x W b = none) ∧
    (∀ (X : List (List ℚ)) (y W : List ℚ) (b r : ℚ) (p : List ℚ),
      p ∈ X → p.length ≠ W.length → perceptronStep X y W b r = none) ∧
    (∀ (rand : ℕ → ℚ) (X : List (List ℚ)) (y : List ℚ) (r : ℚ) (n : ℕ)
      (p : List ℚ), p ∈ X → p.length ≠ 2 → 1 ≤ n →
      trainPerceptronAlgorithm rand X y r n = none) := by
  refine ⟨prediction_some_of_length, prediction_none_of_length,
    perceptronStep_none_of_bad_point, ?_⟩
  intro rand X y r n p hp hlen hn
  obtain ⟨m, rfl⟩ : ∃ m, n = m + 1 := ⟨n - 1, by omega⟩
  obtain ⟨q, qs, rfl⟩ : ∃ q qs, X = q :: qs := by
    cases X with
    | nil => simp at hp
    | cons q qs => exact ⟨q, qs, rfl⟩
  have hstep := perceptronStep_none_of_bad_point (q :: qs) y
    (initialWeights rand)
    (rand 2 + (qs.map (fun l => l.getD 0 0)).foldl max (q.getD 0 0)) r p hp
    (by simpa [initialWeights] using hlen)
  simp only [List.getD_eq_getElem?_getD] at hstep
  simp [trainPerceptronAlgorithm, initialBias, firstCoordMax, trainLoop,
    hstep]

end Perceptron

namespace Perceptron

/-- Witness for C3 (amended) at the concrete run of `C3_counterexample`:
one epoch, seed stream giving initial weights `[1, 0]`, dataset `[[1,1]]`
with label `1` (already classified correctly, so the epoch ends with the
second weight still exactly 0). -/
theorem C3_witness :
    boundaryLineSpec [1, 0] 2 = Except.error LineError.divisionByZero ∧
    ∃ lines, trainPerceptronAlgorithm (fun n => if n = 1 then 0 else 1)
        [[1, 1]] [1] (1 / 10) 1 = some lines ∧
      lines.length = 1 ∧
      lines.get? 0 = some (boundaryLine [1, 0] 2) ∧
      ∀ j, j < 1 → lines.get? j =
        (stepIterate [[1, 1]] [1] (1 / 10)
            (initialWeights (fun n => if n = 1 then 0 else 1), 2)
            (j + 1)).map (fun s => boundaryLine s.1 s.2) :=
  C3_amended (fun n => if n = 1 then 0 else 1) [[1, 1]] [1] (1 / 10) 1 0 2
    [1, 0] 2 (by norm_num) (by norm_num)
    (by norm_num [initialBias, firstCoordMax]) (by norm_num)
    (by norm_num [stepIterate, initialWeights, perceptronStep,
      perceptronPointUpdate, prediction, dotProduct, stepFunction])
    (by norm_num)

/-- Witness for C4 at concrete inputs: a matching pair succeeds, a
mismatched pair is undefined, and the mismatch aborts both `perceptronStep`
and a one-epoch `trainPerceptronAlgorithm`. -/
theorem C4_witness :
    (∃ v, prediction [1, 2] [3, 4] 0 = some v) ∧
    prediction [1] [3, 4] 0 = none ∧
    perceptronStep [[1]] [1] [3, 4] 0 1 = none ∧
    trainPerceptronAlgorithm (fun _ => 1) [[1]] [1] 1 1 = none :=
  ⟨C4_shape_errors.1 [1, 2] [3, 4] 0 (by norm_num),
   C4_shape_errors.2.1 [1] [3, 4] 0 (by norm_num),
   C4_shape_errors.2.2.1 [[1]] [1] [3, 4] 0 1 [1] (by simp) (by norm_num),
   C4_shape_errors.2.2.2 (fun _ => 1) [[1]] [1] 1 1 [1] (by simp)
     (by norm_num) (by norm_num)⟩

/-- Claim C5 as written is false on the code: with one and the same seed
stream, training datasets whose maximum first coordinates differ start
from different initial biases, because `b = np.random.rand(1)[0] + x_max`
adds a dataset-dependent quantity. -/
theorem C5_counterexample :
    initialBias (fun _ => 0) [[1, 1]] ≠ initialBias (fun _ => 0) [[2, 2]] := by
  norm_num [initialBias, firstCoordMax]

/-- Claim C5 (amended): the initial weights are determined by the seed
alone (identical across datasets for a fixed seed), but the initial bias
is the third seed draw plus the dataset's maximum first coordinate, so two
datasets yield the same initial bias only when those maxima agree. -/
theorem C5_amended (rand : ℕ → ℚ) (X₁ X₂ : List (List ℚ)) (m₁ m₂ : ℚ)
    (h₁ : firstCoordMax X₁ = some m₁) (h₂ : firstCoordMax X₂ = some m₂) :
    initialWeights rand = [rand 0, rand 1] ∧
    initialBias rand X₁ = some (rand 2 + m₁) ∧
    initialBias rand X₂ = some (rand 2 + m₂) ∧
    (m₁ ≠ m₂ → initialBias rand X₁ ≠ initialBias rand X₂) := by
  refine ⟨rfl, by simp [initialBias, h₁], by simp [initialBias, h₂], ?_⟩
  intro hne heq
  rw [initialBias, h₁, initialBias, h₂] at heq
  simp only [Option.map_some', Option.some.injEq] at heq
  exact hne (add_left_cancel heq)

/-- Witness for C5 (amended) at seed stream `fun _ => 0` and datasets
`[[1,1]]` and `[[2,2]]`, whose maximum first coordinates are 1 and 2. -/
theorem C5_witness :
    initialWeights (fun _ => 0) = [0, 0] ∧
    initialBias (fun _ => 0) [[1, 1]] = some (0 + 1) ∧
    initialBias (fun _ => 0) [[2, 2]] = some (0 + 2) ∧
    ((1 : ℚ) ≠ 2 →
      initialBias (fun _ => 0) [[1, 1]] ≠ initialBias (fun _ => 0) [[2, 2]]) :=
  C5_amended (fun _ => 0) [[1, 1]] [[2, 2]] 1 2
    (by norm_num [firstCoordMax]) (by norm_num [firstCoordMax])

/-- Claim C6 as written is false on the code: on the empty dataset,
`trainPerceptronAlgorithm` fails at the `min`/`max` over `X.T[0]` before
the epoch loop even starts (modelled by `initialBias` being `none`), for
every `num_epochs` including 0 — it returns no sequence at all instead of
the empty sequence. -/
theorem C6_counterexample :
    trainPerceptronAlgorithm (fun _ => 0) [] [] 1 0 = none ∧
    ¬ (trainPerceptronAlgorithm (fun _ => 0) [] [] 1 0 = some []) := by
  constructor <;>
    simp [trainPerceptronAlgorithm, initialBias, firstCoordMax]

/-- Claim C6 (amended): on a nonempty well-formed dataset, train runs
exactly `num_epochs` perceptron steps in sequence and returns one boundary
line per epoch, the k-th derived from the weights and bias immediately
after the (k+1)-st step; with `num_epochs = 0` it returns the empty
sequence. On the empty dataset it instead fails before any epoch, at the
dataset minimum/maximum computation. -/
theorem C6_train_structure (rand : ℕ → ℚ) (X : List (List ℚ)) (y : List ℚ)
    (r : ℚ) (n : ℕ) (hX : X ≠ []) (hp : ∀ p ∈ X, p.length = 2)
    (hy : X.length ≤ y.length) :
    ∃ b0 lines, initialBias rand X = some b0 ∧
      trainPerceptronAlgorithm rand X y r n = some lines ∧
      lines.length = n ∧
      (∀ k, k < n → lines.get? k =
        (stepIterate X y r (initialWeights rand, b0) (k + 1)).map
          (fun s => boundaryLine s.1 s.2)) ∧
      (n = 0 → lines = []) := by
  obtain ⟨q, qs, rfl⟩ : ∃ q qs, X = q :: qs := by
    cases X with
    | nil => exact absurd rfl hX
    | cons q qs => exact ⟨q, qs, rfl⟩
  have hb0 : initialBias rand (q :: qs) =
      some (rand 2 + (qs.map (fun l => l.getD 0 0)).foldl max (q.getD 0 0)) :=
    rfl
  obtain ⟨lines, hloop, hlen, hget⟩ :=
    trainLoop_spec (q :: qs) y r n (initialWeights rand)
      (rand 2 + (qs.map (fun l => l.getD 0 0)).foldl max (q.getD 0 0))
      (fun p hp' => by simpa [initialWeights] using hp p hp') hy
  refine ⟨_, lines, hb0, ?_, hlen, hget, ?_⟩
  · simp only [trainPerceptronAlgorithm, hb0]
    exact hloop
  · intro h
    subst h
    exact List.length_eq_zero.mp hlen

/-- Witness for C6 at a concrete one-epoch run on dataset `[[1,1]]` with
label `0`, seed stream `fun _ => 1`. -/
theorem C6_witness :
    ∃ b0 lines,
      initialBias (fun _ => 1) [[1, 1]] = some b0 ∧
      trainPerceptronAlgorithm (fun _ => 1) [[1, 1]] [0] (1 / 10) 1 =
        some lines ∧
      lines.length = 1 ∧
      (∀ k, k < 1 → lines.get? k =
        (stepIterate [[1, 1]] [0] (1 / 10)
            (initialWeights (fun _ => 1), b0) (k + 1)).map
          (fun s => boundaryLine s.1 s.2)) ∧
      (1 = 0 → lines = []) :=
  C6_train_structure (fun _ => 1) [[1, 1]] [0] (1 / 10) 1
    (by simp) (by norm_num) (by norm_num)

/-- Claim C7: with matching dimensionality, `prediction` is defined and
pure, returns exactly 0 or 1, and returns 1 precisely when the dot product
of point and weights plus the bias is ≥ 0, else 0. -/
theorem C7_predict (x W : List ℚ) (b : ℚ) (h : x.length = W.length) :
    ∃ v, prediction x W b = some v ∧ (v = 0 ∨ v = 1) ∧
      (v = 1 ↔ 0 ≤ (List.zipWith (fun a c => a * c) x W).sum + b) ∧
      (v = 0 ↔ ¬ 0 ≤ (List.zipWith (fun a c => a * c) x W).sum + b) := by
  obtain ⟨s, hs⟩ := dotProduct_some_of_length x W h
  have hsum := dotProduct_eq_sum x W s hs
  refine ⟨stepFunction (s + b), by simp [prediction, hs],
    stepFunction_mem _, ?_⟩
  rw [← hsum]
  unfold stepFunction
  by_cases hc : s + b ≥ 0
  · rw [if_pos hc]
    exact ⟨iff_of_true rfl hc, iff_of_false one_ne_zero (not_not_intro hc)⟩
  · rw [if_neg hc]
    exact ⟨iff_of_false zero_ne_one hc, iff_of_true rfl hc⟩

/-- Witness for C7 at `point = [1,1]`, `weights = [2,3]`, `bias = -6`
(dot product plus bias is `-1`, so the prediction is 0). -/
theorem C7_witness :
    ∃ v, prediction [1, 1] [2, 3] (-6) = some v ∧ (v = 0 ∨ v = 1) ∧
      (v = 1 ↔ 0 ≤ (List.zipWith (fun a c => a * c)
        ([1, 1] : List ℚ) ([2, 3] : List ℚ)).sum + (-6)) ∧
      (v = 0 ↔ ¬ 0 ≤ (List.zipWith (fun a c => a * c)
        ([1, 1] : List ℚ) ([2, 3] : List ℚ)).sum + (-6)) :=
  C7_predict [1, 1] [2, 3] (-6) rfl

/-- Claim C8: `perceptronStep` is deterministic — two calls with identical
dataset, labels, weights, bias and learning rate return identical results;
the embedding takes no input other than these arguments, so there is no
dependence on randomness or ambient state. -/
theorem C8_determinism (X₁ X₂ : List (List ℚ)) (y₁ y₂ W₁ W₂ : List ℚ)
    (b₁ b₂ r₁ r₂ : ℚ) (hX : X₁ = X₂) (hy : y₁ = y₂) (hW : W₁ = W₂)
    (hb : b₁ = b₂) (hr : r₁ = r₂) :
    perceptronStep X₁ y₁ W₁ b₁ r₁ = perceptronStep X₂ y₂ W₂ b₂ r₂ := by
  rw [hX, hy, hW, hb, hr]

/-- Witness for C8 at a concrete argument tuple. -/
theorem C8_witness :
    perceptronStep [[1, 1]] [0] [0, 0] 0 (1 / 10) =
      perceptronStep [[1, 1]] [0] [0, 0] 0 (1 / 10) :=
  C8_determinism [[1, 1]] [[1, 1]] [0] [0] [0, 0] [0, 0] 0 0 (1 / 10)
    (1 / 10) rfl rfl rfl rfl rfl

/-- Claim C9: the stateful step writes nothing but the weights and bias;
the dataset points and labels, including their order, are identical before
and after the call. -/
theorem C9_frame (r : ℚ) (s t : PState) (h : perceptronStepS r s = some t) :
    t.X = s.X ∧ t.y = s.y :=
  perceptronIterS_frame r s.X.length s t h

/-- Witness for C9 at a concrete state whose single point is misclassified
(so the weights and bias do change, while the dataset does not). -/
theorem C9_witness :
    (PState.mk [[1, 1]] [0] [-1, -1] (-1)).X =
      (PState.mk [[1, 1]] [0] [0, 0] 0).X ∧
    (PState.mk [[1, 1]] [0] [-1, -1] (-1)).y =
      (PState.mk [[1, 1]] [0] [0, 0] 0).y :=
  C9_frame 1 (PState.mk [[1, 1]] [0] [0, 0] 0)
    (PState.mk [[1, 1]] [0] [-1, -1] (-1))
    (by norm_num [perceptronStepS, perceptronIterS, perceptronPointUpdate,
      prediction, dotProduct, stepFunction])

/-- Claim C10: when the weights vector (and every point) has dimension
greater than 2, `perceptronStep` preserves the length of the weights and
returns every component with index ≥ 2 unchanged — the source only ever
writes `W[0]` and `W[1]`. -/
theorem C10_high_indices (X : List (List ℚ)) (y W : List ℚ) (b r : ℚ)
    (W' : List ℚ) (b' : ℚ) (_hdim : 2 < W.length)
    (_hpts : ∀ p ∈ X, 2 < p.length)
    (h : perceptronStep X y W b r = some (W', b')) :
    W'.length = W.length ∧ ∀ i, 2 ≤ i → W'.getD i 0 = W.getD i 0 :=
  ⟨perceptronStep_length X y W b r W' b' h,
   perceptronStep_frame_high X y W b r W' b' h⟩

/-- Witness for C10 at a 3-dimensional misclassified point with a nonzero
third coordinate: the first two weights move, the third is untouched. -/
theorem C10_witness :
    ([1 / 10, 1 / 10, 1] : List ℚ).length = ([0, 0, 1] : List ℚ).length ∧
    ∀ i, 2 ≤ i → ([1 / 10, 1 / 10, 1] : List ℚ).getD i 0 =
      ([0, 0, 1] : List ℚ).getD i 0 :=
  C10_high_indices [[1, 1, -5]] [1] [0, 0, 1] 0 (1 / 10)
    [1 / 10, 1 / 10, 1] (1 / 10) (by norm_num) (by norm_num)
    (by norm_num [perceptronStep, perceptronPointUpdate, prediction,
      dotProduct, stepFunction])

end Perceptron
